import Mathlib

/-
Verification development for the JSSVT Java-submission grading pipeline
(sources: JVSSTV2_SingleFile.py, java_submission_tester.py).

The Python sources are shallowly embedded below.  Conventions:
* Python `str` is Lean `String`; text is treated as a sequence of characters
  and the ASCII whitespace set {' ', '\t', '\n', '\r', '\x0B', '\x0C'} models
  Python's `str.strip`, `str.split`, and the regex class `\s` (the sources
  only ever compare toolchain output, which is ASCII).  `str.splitlines` is
  modelled as splitting on '\n' (with Python's trailing-newline rule).
* Python `float` values are embedded as `PyFloat`: an exact decimal
  `num / 10 ^ scale` for finite values plus infinity and `nan`, with
  IEEE-style comparison semantics (every comparison with `nan` is false).
  Decimal literals are modelled exactly; binary rounding of IEEE doubles is
  idealised away.  Soft-cleaned tokens contain no sign characters, so all
  finite values are nonnegative and a single infinity suffices.
* The filesystem is modelled explicitly where a claim needs it: a directory
  is a list of (name, node) entries, a zip archive is its member-name list,
  the temp-extraction root is the list of entry names it contains.
-/

namespace JSSVT

/-! ## Python string primitives used by `compare_output` -/

/-- ASCII whitespace, modelling Python's `str.strip()` / `str.split()` /
regex `\s` on the toolchain output handled by the pipeline. -/
def pyWs (c : Char) : Bool :=
  c = ' ' || c = '\t' || c = '\n' || c = '\r' || c = '\x0B' || c = '\x0C'

/-- Python `str.strip()`: drop leading and trailing whitespace. -/
def pyStrip (s : String) : String :=
  ⟨((s.data.dropWhile pyWs).reverse.dropWhile pyWs).reverse⟩

/-- Split a character list at every character satisfying `p`, keeping empty
pieces (the behaviour of Python `str.split(sep)` for a one-character
separator generalised to a predicate). -/
def splitIfChars (p : Char → Bool) : List Char → List (List Char)
  | [] => [[]]
  | c :: cs =>
    let r := splitIfChars p cs
    if p c then [] :: r
    else
      match r with
      | [] => [[c]]
      | h :: t => (c :: h) :: t

/-- Python `str.splitlines()` (newlines modelled as '\n'): split on '\n',
dropping the final empty piece produced by a trailing newline; the empty
string yields no lines. -/
def splitlines (s : String) : List String :=
  if s.data = [] then []
  else
    let parts := (splitIfChars (fun c => c = '\n') s.data).map
      (fun l => (⟨l⟩ : String))
    if s.data.getLast? = some '\n' then parts.dropLast else parts

/-- Characters kept by the soft-clean regex `[^a-zA-Z0-9.\s]` deletion in
`compare_output`: ASCII letters, digits, the period, and whitespace. -/
def keepChar (c : Char) : Bool :=
  c.isAlpha || c.isDigit || c = '.' || pyWs c

/-- `soft_clean` from `compare_output`: delete every character that is not a
letter, digit, period or whitespace, lowercase, and split on whitespace
(Python `str.split()` with no separator drops empty pieces). -/
def softClean (s : String) : List String :=
  let cleaned := (s.data.filter keepChar).map Char.toLower
  ((splitIfChars pyWs cleaned).map (fun l => (⟨l⟩ : String))).filter
    (fun t => t ≠ "")

/-! ## Python `float` embedding -/

/-- A Python float produced by `float(tok)` on a soft-cleaned token: an
exact nonnegative decimal `num / 10 ^ scale`, infinity, or `nan`. -/
inductive PyFloat where
  | fin (num scale : ℕ)
  | pinf
  | nan
deriving DecidableEq, Repr

/-- The rational value of a finite `PyFloat`. -/
def finVal (num scale : ℕ) : ℚ := (num : ℚ) / 10 ^ scale

/-- Numeric value of an ASCII digit character. -/
def digitVal (c : Char) : ℕ := c.toNat - 48

/-- Value of a digit string read in base 10. -/
def digitsVal (cs : List Char) : ℕ :=
  cs.foldl (fun a c => 10 * a + digitVal c) 0

/-- Parse the mantissa accepted by Python `float` on sign-free input:
`d+`, `d+.d*`, `.d+` or `d+.d+` (at least one digit overall), returning the
exact decimal `(num, scale)` with value `num / 10 ^ scale`. -/
def parseMantissa (cs : List Char) : Option (ℕ × ℕ) :=
  match cs.span (fun c => c ≠ '.') with
  | (intPart, []) =>
    if intPart ≠ [] ∧ intPart.all Char.isDigit then
      some (digitsVal intPart, 0)
    else none
  | (intPart, _ :: fracPart) =>
    if fracPart.all (fun c => c ≠ '.') ∧ intPart.all Char.isDigit ∧
        fracPart.all Char.isDigit ∧ (intPart ≠ [] ∨ fracPart ≠ []) then
      some (digitsVal intPart * 10 ^ fracPart.length + digitsVal fracPart,
        fracPart.length)
    else none

/-- Parse a finite numeric literal accepted by Python `float` on sign-free
lowercase input, including an optional exponent `e d+` (a sign inside the
exponent is impossible after soft-cleaning). -/
def parsePyNumber (cs : List Char) : Option (ℕ × ℕ) :=
  match cs.span (fun c => c ≠ 'e') with
  | (mant, []) => parseMantissa mant
  | (mant, _ :: ex) =>
    match parseMantissa mant with
    | some (n, s) =>
      if ex ≠ [] ∧ ex.all Char.isDigit then
        let k := digitsVal ex
        some (if s ≤ k then (n * 10 ^ (k - s), 0) else (n, s - k))
      else none
    | none => none

/-- Python `float(tok)` on a soft-cleaned token (lowercase, sign-free,
whitespace-free): accepts `inf`/`infinity`, `nan`, and finite numeric
literals; `none` models the `ValueError` branch. -/
def parsePyFloat (t : String) : Option PyFloat :=
  if t = "inf" ∨ t = "infinity" then some .pinf
  else if t = "nan" then some .nan
  else (parsePyNumber t.data).map (fun p => .fin p.1 p.2)

/-- A token's value when it parses as a finite real number (the reading of
"parses as a real number" used by the specification). -/
def parseReal (t : String) : Option ℚ :=
  match parsePyFloat t with
  | some (.fin n s) => some (finVal n s)
  | _ => none

/-! ## The tolerant comparator `compare_output` -/

/-- The numeric test `abs(float(a) - float(e)) > 0.02` of `compare_output`.
For two finite decimals the inequality is decided exactly by
cross-multiplication (see `pyDiffGt_fin_iff`); differences involving one
infinity are infinite (greater), and `inf - inf` as well as anything with
`nan` gives `nan`, whose every comparison is false. -/
def pyDiffGt : PyFloat → PyFloat → Bool
  | .fin n1 s1, .fin n2 s2 =>
    2 * 10 ^ (s1 + s2) < 100 * ((n1 * 10 ^ s2 : ℤ) - n2 * 10 ^ s1).natAbs
  | .fin _ _, .pinf => true
  | .pinf, .fin _ _ => true
  | .pinf, .pinf => false
  | .nan, _ => false
  | _, .nan => false

/-- The per-token test of `compare_output`: if both tokens convert with
`float`, the pair differs exactly when `abs(a - b) > 0.02` evaluates true;
if either conversion raises `ValueError`, the tokens differ exactly when
they are not byte-identical. -/
def tokensDiffer (a e : String) : Bool :=
  match parsePyFloat a, parsePyFloat e with
  | some x, some y => pyDiffGt x y
  | _, _ => decide (a ≠ e)

/-- The per-line test of `compare_output` on already-stripped lines: token
counts must agree and no aligned token pair may differ. -/
def lineMatches (act exp : String) : Bool :=
  let ats := softClean act
  let ets := softClean exp
  (ats.length == ets.length) &&
    (ats.zip ets).all (fun p => !(tokensDiffer p.1 p.2))

/-- The early-end diagnostic of `compare_output`. -/
def endedEarlyMsg (n : ℕ) : String :=
  s!"Mismatch at line {n}: One file ended unexpectedly."

/-- The divergence diagnostic of `compare_output` (raw lines quoted). -/
def mismatchMsg (n : ℕ) (expLine actLine : String) : String :=
  s!"Mismatch at line {n}:\n  Expected: \"{expLine}\"\n  Actual:   \"{actLine}\""

/-- Pair the two line lists index-by-index up to the longer one, padding the
shorter side with `none` (modelling the `i < len(...)` bounds checks). -/
def padZip : List String → List String → List (Option String × Option String)
  | [], ys => ys.map (fun y => (none, some y))
  | x :: xs, [] => (some x, none) :: padZip xs []
  | x :: xs, y :: ys => (some x, some y) :: padZip xs ys

/-- The scanning loop of `compare_output`, carrying the 1-based line
number. -/
def compareGo : ℕ → List (Option String × Option String) → Bool × String
  | _, [] => (true, "Output matches expected")
  | n, p :: rest =>
    match p with
    | (some a, some e) =>
      let a2 := pyStrip a
      let e2 := pyStrip e
      if a2 = "" ∧ e2 = "" then compareGo (n + 1) rest
      else if lineMatches a2 e2 = true then compareGo (n + 1) rest
      else (false, mismatchMsg n e a)
    | (some _, none) => (false, endedEarlyMsg n)
    | (none, some _) => (false, endedEarlyMsg n)
    | (none, none) => (false, endedEarlyMsg n)

/-- `JavaSubmissionTester.compare_output` (identical in both drafts). -/
def compare_output (actual expected : String) : Bool × String :=
  compareGo 1 (padZip (splitlines actual) (splitlines expected))

/-! ## Specification-side predicates for the comparator claims -/

/-- A line pair is line-`i` divergent in the sense of the specification:
out of range on exactly one side, or (after stripping) not both empty and
failing the per-line match. -/
def divergesAt (a e : List String) (i : ℕ) : Bool :=
  match a[i]?, e[i]? with
  | some x, some y =>
    if pyStrip x = "" ∧ pyStrip y = "" then false
    else !(lineMatches (pyStrip x) (pyStrip y))
  | none, none => false
  | _, _ => true

/-- A padded line pair passes the scan: both lines present and either both
blank after stripping or matching. -/
def pairOk (p : Option String × Option String) : Bool :=
  match p with
  | (some a, some e) =>
    if pyStrip a = "" ∧ pyStrip e = "" then true
    else lineMatches (pyStrip a) (pyStrip e)
  | _ => false

theorem compareGo_fst (ps : List (Option String × Option String)) :
    ∀ n, (compareGo n ps).1 = ps.all pairOk := by
  induction ps with
  | nil => intro n; rfl
  | cons p rest ih =>
    intro n
    obtain ⟨oa, oe⟩ := p
    match oa, oe with
    | some a, some e =>
      simp only [compareGo, List.all_cons, pairOk]
      split_ifs with h1 h2
      · simpa using ih (n + 1)
      · simpa [h2] using ih (n + 1)
      · simp_all
    | some a, none => simp [compareGo, List.all_cons, pairOk]
    | none, some e => simp [compareGo, List.all_cons, pairOk]
    | none, none => simp [compareGo, List.all_cons, pairOk]

theorem divergesAt_cons_succ (x y : String) (xs ys : List String) (i : ℕ) :
    divergesAt (x :: xs) (y :: ys) (i + 1) = divergesAt xs ys i := by
  simp [divergesAt]

theorem forall_diverge_cons (x y : String) (xs ys : List String) :
    (∀ i, divergesAt (x :: xs) (y :: ys) i = false) ↔
      (divergesAt (x :: xs) (y :: ys) 0 = false ∧
        ∀ i, divergesAt xs ys i = false) := by
  constructor
  · intro h
    exact ⟨h 0, fun i => (divergesAt_cons_succ x y xs ys i) ▸ h (i + 1)⟩
  · rintro ⟨h0, hs⟩ i
    cases i with
    | zero => exact h0
    | succ j => rw [divergesAt_cons_succ]; exact hs j

theorem padZip_all_iff (xs : List String) :
    ∀ ys, ((padZip xs ys).all pairOk = true ↔ ∀ i, divergesAt xs ys i = false) := by
  induction xs with
  | nil =>
    intro ys
    cases ys with
    | nil =>
      simp only [padZip, List.map_nil, List.all_nil, true_iff]
      intro i
      simp [divergesAt]
    | cons y ys2 =>
      simp only [padZip, List.map_cons, List.all_cons, pairOk]
      constructor
      · intro h; exact absurd h (by simp)
      · intro h
        have := h 0
        simp [divergesAt] at this
  | cons x xs2 ih =>
    intro ys
    cases ys with
    | nil =>
      simp only [padZip, List.all_cons, pairOk]
      constructor
      · intro h; exact absurd h (by simp)
      · intro h
        have := h 0
        simp [divergesAt] at this
    | cons y ys2 =>
      simp only [padZip, List.all_cons]
      rw [forall_diverge_cons]
      have h0 : divergesAt (x :: xs2) (y :: ys2) 0 = !(pairOk (some x, some y)) := by
        simp only [divergesAt, pairOk, List.getElem?_cons_zero]
        split_ifs <;> simp
      rw [h0]
      rw [Bool.and_eq_true]
      rw [ih ys2]
      constructor
      · rintro ⟨h1, h2⟩; exact ⟨by simp [h1], h2⟩
      · rintro ⟨h1, h2⟩
        refine ⟨?_, h2⟩
        cases hp : pairOk (some x, some y) with
        | false => rw [hp] at h1; simp at h1
        | true => rfl

theorem compare_output_fst_iff (actual expected : String) :
    (compare_output actual expected).1 = true ↔
      ∀ i, divergesAt (splitlines actual) (splitlines expected) i = false := by
  rw [compare_output, compareGo_fst, padZip_all_iff]

theorem compareGo_early (xs : List String) :
    ∀ (ys : List String) (n : ℕ), xs.length ≠ ys.length →
      (∀ i, i < min xs.length ys.length → divergesAt xs ys i = false) →
      compareGo n (padZip xs ys) =
        (false, endedEarlyMsg (n + min xs.length ys.length)) := by
  induction xs with
  | nil =>
    intro ys n hne _
    cases ys with
    | nil => exact absurd rfl hne
    | cons y ys2 => simp [padZip, compareGo, endedEarlyMsg]
  | cons x xs2 ih =>
    intro ys n hne hdiv
    cases ys with
    | nil => simp [padZip, compareGo, endedEarlyMsg]
    | cons y ys2 =>
      have h0 := hdiv 0 (by simp [Nat.lt_min])
      simp only [divergesAt, List.getElem?_cons_zero] at h0
      have hstep : compareGo n (padZip (x :: xs2) (y :: ys2)) =
          compareGo (n + 1) (padZip xs2 ys2) := by
        simp only [padZip, compareGo]
        split_ifs with h1 h2
        · rfl
        · rfl
        · exfalso
          rw [if_neg h1] at h0
          simp only [Bool.not_eq_false'] at h0
          exact h2 h0
      rw [hstep]
      have hlen : xs2.length ≠ ys2.length := by
        intro h; exact hne (by simp [h])
      have hdiv2 : ∀ i, i < min xs2.length ys2.length → divergesAt xs2 ys2 i = false := by
        intro i hi
        rw [← divergesAt_cons_succ x y xs2 ys2 i]
        refine hdiv (i + 1) ?_
        simp only [List.length_cons, Nat.succ_min_succ]
        omega
      rw [ih ys2 (n + 1) hlen hdiv2]
      have : n + 1 + min xs2.length ys2.length =
          n + min (x :: xs2).length (y :: ys2).length := by
        simp only [List.length_cons, Nat.succ_min_succ]
        omega
      rw [this]

/-- Cross-multiplication correctness for the finite-case numeric test:
`pyDiffGt` on two finite decimals decides `0.02 < |value1 - value2|`. -/
theorem pyDiffGt_fin_iff (n1 s1 n2 s2 : ℕ) :
    pyDiffGt (.fin n1 s1) (.fin n2 s2) = true ↔
      (2 / 100 : ℚ) < |finVal n1 s1 - finVal n2 s2| := by
  have h1 : ((10 : ℚ) ^ s1) ≠ 0 := by positivity
  have h2 : ((10 : ℚ) ^ s2) ≠ 0 := by positivity
  have key : |finVal n1 s1 - finVal n2 s2| =
      ((((n1 * 10 ^ s2 : ℤ) - n2 * 10 ^ s1).natAbs : ℚ)) / 10 ^ (s1 + s2) := by
    unfold finVal
    rw [div_sub_div _ _ h1 h2, abs_div]
    rw [abs_of_pos (a := (10 : ℚ) ^ s1 * 10 ^ s2) (by positivity)]
    rw [Int.cast_natAbs]
    rw [pow_add]
    push_cast
    ring_nf
  rw [key]
  unfold pyDiffGt
  rw [decide_eq_true_iff]
  rw [div_lt_div_iff₀ (by norm_num) (by positivity)]
  constructor
  · intro h
    calc (2 : ℚ) * 10 ^ (s1 + s2)
        = ((2 * 10 ^ (s1 + s2) : ℕ) : ℚ) := by push_cast; ring
      _ < ((100 * ((n1 * 10 ^ s2 : ℤ) - n2 * 10 ^ s1).natAbs : ℕ) : ℚ) := by
          exact_mod_cast h
      _ = (((n1 * 10 ^ s2 : ℤ) - n2 * 10 ^ s1).natAbs : ℚ) * 100 := by
          push_cast; ring
  · intro h
    have : ((2 * 10 ^ (s1 + s2) : ℕ) : ℚ) <
        ((100 * ((n1 * 10 ^ s2 : ℤ) - n2 * 10 ^ s1).natAbs : ℕ) : ℚ) := by
      push_cast
      push_cast at h
      linarith
    exact_mod_cast this

/-! ## Claim theorems for the comparator (C2, C3, C4, C10) -/

/-- C2 (counterexample): `compare("Price: $29.99", "Price 2999")` does NOT
return a match verdict — the code returns `matched = false`, refuting the
claimed `matched = true`. -/
theorem claim2_counterexample :
    (compare_output "Price: $29.99" "Price 2999").1 = false := by decide

/-- C2 (amended): `compare("Price: $29.99", "Price 2999")` returns a
mismatch at line 1.  Soft-cleaning removes the punctuation, leaving tokens
`price 29.99` versus `price 2999`; the word tokens agree, but `29.99` and
`2999` both parse as numbers whose difference exceeds 0.02, so the
punctuation tolerance does not make the lines equal. -/
theorem claim2_price_mismatch :
    compare_output "Price: $29.99" "Price 2999" =
      (false, mismatchMsg 1 "Price 2999" "Price: $29.99") ∧
    softClean "Price: $29.99" = ["price", "29.99"] ∧
    softClean "Price 2999" = ["price", "2999"] ∧
    tokensDiffer "price" "price" = false ∧
    tokensDiffer "29.99" "2999" = true := by decide

/-- C3 (counterexample): the claimed token rule fails on tokens that
`float()` converts to non-real values.  Java prints `NaN` and `Infinity`
for doubles; after soft-cleaning these become `nan` and `infinity`, which
do not parse as real numbers and are not byte-identical — yet the code
matches them, because `abs(float("nan") - float("infinity")) > 0.02` is a
`nan` comparison and therefore false. -/
theorem claim3_counterexample :
    (compare_output "NaN" "Infinity").1 = true ∧
    lineMatches "NaN" "Infinity" = true ∧
    softClean "NaN" = ["nan"] ∧
    softClean "Infinity" = ["infinity"] ∧
    parseReal "nan" = none ∧
    parseReal "infinity" = none ∧
    ("nan" : String) ≠ "infinity" := by decide

/-- C3 (amended): two non-empty cleaned lines match iff they produce the
same token count and every aligned token pair matches, where a pair whose
tokens both convert with `float` matches unless the absolute difference
compares greater than 0.02 (comparisons involving `nan` are false, so
non-real conversions such as `nan`/`infinity` match), and a pair with a
failed conversion matches only when byte-identical.  For tokens that parse
as finite real numbers this is exactly `|a - b| ≤ 0.02`, and the three
quoted examples hold. -/
theorem claim3_token_semantics :
    (∀ a e : String, lineMatches a e = true ↔
      ((softClean a).length = (softClean e).length ∧
        ∀ p ∈ (softClean a).zip (softClean e), tokensDiffer p.1 p.2 = false)) ∧
    (∀ (a e : String) (x y : ℚ), parseReal a = some x → parseReal e = some y →
      (tokensDiffer a e = false ↔ |x - y| ≤ 2 / 100)) ∧
    (compare_output "3.14159" "3.14").1 = true ∧
    (compare_output "3.10" "3.14").1 = false ∧
    (compare_output "abc" "abd").1 = false := by
  refine ⟨?_, ?_, by decide, by decide, by decide⟩
  · intro a e
    simp only [lineMatches, Bool.and_eq_true, beq_iff_eq, List.all_eq_true,
      Bool.not_eq_true']
  · intro a e x y hx hy
    unfold parseReal at hx hy
    cases hpa : parsePyFloat a with
    | none => rw [hpa] at hx; exact absurd hx (by simp)
    | some pa =>
      cases hpe : parsePyFloat e with
      | none => rw [hpe] at hy; exact absurd hy (by simp)
      | some pe =>
        rw [hpa] at hx
        rw [hpe] at hy
        match pa, hx with
        | .fin n1 s1, hx =>
          match pe, hy with
          | .fin n2 s2, hy =>
            have hx2 : x = finVal n1 s1 := by
              simpa using hx.symm
            have hy2 : y = finVal n2 s2 := by
              simpa using hy.symm
            subst hx2
            subst hy2
            unfold tokensDiffer
            rw [hpa, hpe]
            rw [Bool.eq_false_iff, Ne, pyDiffGt_fin_iff, not_lt]

/-- C3 (witness): the finite-number equivalence applied to the pair
`3.14159` / `3.14` (exact values `314159/10^5` and `314/10^2`). -/
theorem claim3_witness :
    parseReal "3.14159" = some (finVal 314159 5) ∧
    parseReal "3.14" = some (finVal 314 2) ∧
    tokensDiffer "3.14159" "3.14" = false ∧
    |finVal 314159 5 - finVal 314 2| ≤ 2 / 100 :=
  ⟨rfl, rfl,
    by decide,
    (claim3_token_semantics.2.1 "3.14159" "3.14" (finVal 314159 5) (finVal 314 2)
      rfl rfl).mp (by decide)⟩

/-- C4: the comparator scans line indices over the longer text: the verdict
is a match exactly when no index diverges; when one text ends before the
other and no earlier line diverged, the verdict is a mismatch reported at
the first line number past the shorter text; and index pairs that are both
empty after stripping are never divergences. -/
theorem claim4_line_scan (actual expected : String) :
    ((compare_output actual expected).1 = true ↔
      ∀ i, divergesAt (splitlines actual) (splitlines expected) i = false) ∧
    ((splitlines actual).length ≠ (splitlines expected).length →
      (∀ i, i < min (splitlines actual).length (splitlines expected).length →
        divergesAt (splitlines actual) (splitlines expected) i = false) →
      compare_output actual expected =
        (false, endedEarlyMsg
          (min (splitlines actual).length (splitlines expected).length + 1))) ∧
    (∀ (i : ℕ) (x y : String),
      (splitlines actual)[i]? = some x → (splitlines expected)[i]? = some y →
      pyStrip x = "" → pyStrip y = "" →
      divergesAt (splitlines actual) (splitlines expected) i = false) := by
  refine ⟨compare_output_fst_iff actual expected, ?_, ?_⟩
  · intro hne hdiv
    rw [compare_output, compareGo_early _ _ _ hne hdiv, Nat.add_comm]
  · intro i x y hx hy hx2 hy2
    simp [divergesAt, hx, hy, hx2, hy2]

/-- C4 (witness): instantiation at `"a\nb"` versus `"a"` — the second text
ends first, the only shared line matches, and the verdict is the early-end
mismatch at line 2; plus a matching instantiation. -/
theorem claim4_witness :
    compare_output "a\nb" "a" = (false, endedEarlyMsg 2) ∧
    (compare_output "a" "a").1 = true :=
  ⟨by
    have h := (claim4_line_scan "a\nb" "a").2.1 (by decide)
      (by
        intro i hi
        have : i = 0 := by
          simp only [show (splitlines "a\nb").length = 2 from by decide,
            show (splitlines "a").length = 1 from by decide] at hi
          omega
        subst this
        decide)
    simpa using h,
   by
    exact (claim4_line_scan "a" "a").1.mpr (by
      intro i
      match i with
      | 0 => decide
      | 1 => decide
      | (j + 2) =>
        simp [divergesAt, show (splitlines "a") = ["a"] from by decide])⟩

/-- C10: a line that is empty after stripping matches any line whose
characters are all deleted by soft-cleaning, because both clean to zero
tokens; in particular, in `compare("a\n\nb", "a\n---!!!\nb")` line 2 is
textually empty on one side only and consists of punctuation on the other,
and the comparator still returns a match. -/
theorem claim10_blank_vs_punct :
    (∀ a e : String, pyStrip a = "" → softClean (pyStrip e) = [] →
      lineMatches (pyStrip a) (pyStrip e) = true) ∧
    (compare_output "a\n\nb" "a\n---!!!\nb").1 = true ∧
    (splitlines "a\n\nb")[1]? = some "" ∧
    (splitlines "a\n---!!!\nb")[1]? = some "---!!!" ∧
    ("---!!!" : String) ≠ "" := by
  refine ⟨?_, by decide, by decide, by decide, by decide⟩
  intro a e ha he
  rw [ha]
  simp only [lineMatches, he, show softClean "" = [] from by decide]
  decide

/-- C10 (witness): the blank-versus-punctuation rule applied to the lines
`" "` and `"---!!!"`. -/
theorem claim10_witness :
    pyStrip " " = "" ∧ softClean (pyStrip "---!!!") = [] ∧
    lineMatches (pyStrip " ") (pyStrip "---!!!") = true :=
  ⟨by decide, by decide,
    claim10_blank_vs_punct.1 " " "---!!!" (by decide) (by decide)⟩

/-! ## Wrapper splitting: `preprocess_nested_zips` (C1)

A zip archive is modelled by its student id and the list of member paths
reported by `ZipFile.namelist()` (separator '/'). -/

/-- Character-list prefix test. -/
def listLeads : List Char → List Char → Bool
  | [], _ => true
  | _ :: _, [] => false
  | a :: as, b :: bs => a = b && listLeads as bs

/-- Python `str.startswith`. -/
def beginsWith (s pre : String) : Bool := listLeads pre.data s.data

/-- Python `str.endswith`. -/
def finishesWith (s suf : String) : Bool :=
  listLeads suf.data.reverse s.data.reverse

/-- `pathlib.Path(member).name`: the last '/'-separated component. -/
def baseName (m : String) : String :=
  match (splitIfChars (fun c => c = '/') m.data).getLast? with
  | some l => ⟨l⟩
  | none => m

/-- An archive member list contains at least one source (`.java`) member
outside OS metadata. -/
def hasVisibleSource (members : List String) : Bool :=
  members.any (fun m => !(beginsWith m "__MACOSX") && finishesWith m ".java")

/-- `JVSSTV2_SingleFile.preprocess_nested_zips`, per archive: every member
outside `__MACOSX` that ends in `.java` or `.zip` is extracted and renamed
to `{student_id}_{member_basename}` as an independent submission, and the
archive is renamed to `.zip.original` — unconditionally, with no wrapper
check.  Returns (created submission names, archive renamed?). -/
def v2ProcessArchive (sid : String) (members : List String) :
    List String × Bool :=
  let ms := members.filter (fun m => !(beginsWith m "__MACOSX"))
  let created :=
    (ms.filter (fun m => finishesWith m ".java" || finishesWith m ".zip")).map
      (fun m => sid ++ "_" ++ baseName m)
  (created, true)

/-- `java_submission_tester.preprocess_nested_zips`, per archive: the
archive is split only when it contains at least one nested `.zip` member
and no `.java` member (both counted outside `__MACOSX`); in that case each
nested zip is extracted and renamed to `{student_id}_{member_basename}`
and the archive is renamed to `.zip.original`; otherwise it is left
untouched. -/
def jstProcessArchive (sid : String) (members : List String) :
    List String × Bool :=
  if members.filter
      (fun m => finishesWith m ".zip" && !(beginsWith m "__MACOSX")) ≠ [] ∧
      hasVisibleSource members = false then
    ((members.filter
        (fun m => finishesWith m ".zip" && !(beginsWith m "__MACOSX"))).map
      (fun m => sid ++ "_" ++ baseName m), true)
  else ([], false)

/-- C1 (counterexample): an archive holding the single source member
`Main.java` is nevertheless split by `JVSSTV2_SingleFile.py`'s
`preprocess_nested_zips`: the member is extracted as an independent
submission `s_Main.java` and the archive is renamed. -/
theorem claim1_counterexample :
    hasVisibleSource ["Main.java"] = true ∧
    v2ProcessArchive "s" ["Main.java"] = (["s_Main.java"], true) := by decide

/-- C1 (amended): the claimed behaviour is exactly that of
`java_submission_tester.py`: an archive with at least one visible source
member is never split there, and it splits precisely the archives with at
least one nested zip and no source.  `JVSSTV2_SingleFile.py`'s variant
instead splits every archive: it always renames the original, and every
visible `.java`/`.zip` member is extracted as an independent submission. -/
theorem claim1_wrapper_split :
    (∀ (sid : String) (members : List String),
      hasVisibleSource members = true → jstProcessArchive sid members = ([], false)) ∧
    (∀ (sid : String) (members : List String),
      (jstProcessArchive sid members).2 = true ↔
        (members.filter
          (fun m => finishesWith m ".zip" && !(beginsWith m "__MACOSX")) ≠ [] ∧
          hasVisibleSource members = false)) ∧
    (∀ (sid : String) (members : List String),
      (v2ProcessArchive sid members).2 = true) ∧
    (∀ (sid : String) (members : List String) (m : String),
      m ∈ members → beginsWith m "__MACOSX" = false →
      (finishesWith m ".java" || finishesWith m ".zip") = true →
      (sid ++ "_" ++ baseName m) ∈ (v2ProcessArchive sid members).1) := by
  refine ⟨?_, ?_, ?_, ?_⟩
  · intro sid members h
    simp [jstProcessArchive, h]
  · intro sid members
    unfold jstProcessArchive
    split_ifs with h
    · simp [h]
    · simp only [iff_false_intro h]
  · intro sid members
    rfl
  · intro sid members m hm hmac hext
    simp only [v2ProcessArchive, List.mem_map, List.mem_filter]
    exact ⟨m, ⟨by simp [hm, hmac], hext⟩, rfl⟩

/-- C1 (witness): the amended statements instantiated — a two-source
archive is untouched by the wrapper splitter, a two-zip no-source archive
is split, and the single-file variant splits a mixed archive. -/
theorem claim1_witness :
    jstProcessArchive "77" ["A.java", "B.java"] = ([], false) ∧
    ((jstProcessArchive "77" ["part1.zip", "part2.zip"]).2 = true) ∧
    (("77" ++ "_" ++ baseName "Main.java") ∈
      (v2ProcessArchive "77" ["Main.java", "inner.zip"]).1) :=
  ⟨claim1_wrapper_split.1 "77" ["A.java", "B.java"] (by decide),
   (claim1_wrapper_split.2.1 "77" ["part1.zip", "part2.zip"]).mpr
     (by constructor <;> decide),
   claim1_wrapper_split.2.2.2 "77" ["Main.java", "inner.zip"] "Main.java"
     (by decide) (by decide) (by decide)⟩

/-! ## Working-directory allocation: `extract_zip` (C5)

The temp-extraction root is modelled as the list of entry names it
currently contains.  `extract_zip` picks the name `{student_id}_{n}` for
the smallest positive `n` not in use, mirroring the
`counter = 1; while (... / f"{student_id}_{counter}").exists(): counter += 1`
loop; the loop is embedded with `fs.length + 1` fuel, which is proved
sufficient. -/

/-- Decimal rendering of a natural number (Python `f"{n}"`), digit
accumulator form with structural fuel. -/
def natCharsAux : ℕ → ℕ → List Char → List Char
  | 0, _, acc => acc
  | fuel + 1, n, acc =>
    let d := Nat.digitChar (n % 10)
    if n < 10 then d :: acc else natCharsAux fuel (n / 10) (d :: acc)

/-- Decimal rendering of a natural number. -/
def natStr (n : ℕ) : String := ⟨natCharsAux (n + 1) n []⟩

/-- Base-10 decoding of a digit list (left inverse of the rendering). -/
def decDigits (cs : List Char) : ℕ :=
  cs.foldl (fun a c => 10 * a + digitVal c) 0

theorem natCharsAux_acc (fuel : ℕ) :
    ∀ (n : ℕ) (acc : List Char),
      natCharsAux fuel n acc = natCharsAux fuel n [] ++ acc := by
  induction fuel with
  | zero => intro n acc; rfl
  | succ fuel ih =>
    intro n acc
    by_cases h : n < 10
    · simp [natCharsAux, h]
    · simp only [natCharsAux, if_neg h]
      rw [ih (n / 10) [Nat.digitChar (n % 10)],
        ih (n / 10) (Nat.digitChar (n % 10) :: acc)]
      simp

theorem decDigits_append_one (cs : List Char) (c : Char) :
    decDigits (cs ++ [c]) = 10 * decDigits cs + digitVal c := by
  simp [decDigits, List.foldl_append]

theorem digitVal_digitChar (m : ℕ) (h : m < 10) :
    digitVal (Nat.digitChar m) = m := by
  interval_cases m <;> decide

theorem decDigits_natCharsAux (fuel : ℕ) :
    ∀ n : ℕ, n < 10 ^ fuel → decDigits (natCharsAux fuel n []) = n := by
  induction fuel with
  | zero =>
    intro n hn
    interval_cases n
    rfl
  | succ fuel ih =>
    intro n hn
    by_cases h : n < 10
    · simp only [natCharsAux, if_pos h, Nat.mod_eq_of_lt h]
      have hone : decDigits [Nat.digitChar n] = digitVal (Nat.digitChar n) := by
        simp [decDigits]
      rw [hone, digitVal_digitChar n h]
    · simp only [natCharsAux, if_neg h]
      rw [natCharsAux_acc]
      rw [decDigits_append_one]
      have hdiv : n / 10 < 10 ^ fuel := by
        rw [Nat.div_lt_iff_lt_mul (by norm_num)]
        calc n < 10 ^ (fuel + 1) := hn
          _ = 10 ^ fuel * 10 := by ring
      rw [ih (n / 10) hdiv, digitVal_digitChar (n % 10) (Nat.mod_lt n (by norm_num))]
      omega

theorem natStr_injective : Function.Injective natStr := by
  intro a b hab
  have h : natCharsAux (a + 1) a [] = natCharsAux (b + 1) b [] :=
    congrArg String.data hab
  have ha : a < 10 ^ (a + 1) :=
    lt_of_lt_of_le (Nat.lt_pow_self (by norm_num) a)
      (Nat.pow_le_pow_right (by norm_num) (Nat.le_succ a))
  have hb : b < 10 ^ (b + 1) :=
    lt_of_lt_of_le (Nat.lt_pow_self (by norm_num) b)
      (Nat.pow_le_pow_right (by norm_num) (Nat.le_succ b))
  calc a = decDigits (natCharsAux (a + 1) a []) := (decDigits_natCharsAux _ a ha).symm
    _ = decDigits (natCharsAux (b + 1) b []) := by rw [h]
    _ = b := decDigits_natCharsAux _ b hb

/-- The working-directory name `f"{student_id}_{counter}"`. -/
def dirName (sid : String) (k : ℕ) : String := sid ++ "_" ++ natStr k

theorem dirName_injective (sid : String) : Function.Injective (dirName sid) := by
  intro k1 k2 h
  apply natStr_injective
  have hd := congrArg String.data h
  simp only [dirName, String.data_append] at hd
  have hcancel := List.append_cancel_left hd
  exact congrArg String.mk hcancel

/-- The `while ... exists(): counter += 1` loop of `extract_zip`, with
explicit fuel. -/
def allocFrom (fs : List String) (sid : String) : ℕ → ℕ → ℕ
  | 0, c => c
  | fuel + 1, c =>
    if dirName sid c ∈ fs then allocFrom fs sid fuel (c + 1) else c

/-- The counter chosen by `extract_zip` for `student_id` given the existing
entries `fs` of the temp-extraction root. -/
def allocCounter (fs : List String) (sid : String) : ℕ :=
  allocFrom fs sid (fs.length + 1) 1

theorem allocFrom_spec (fs : List String) (sid : String) :
    ∀ (fuel c : ℕ),
      (∃ k, c ≤ k ∧ k < c + fuel + 1 ∧ dirName sid k ∉ fs) →
      dirName sid (allocFrom fs sid fuel c) ∉ fs ∧
        c ≤ allocFrom fs sid fuel c ∧
        ∀ m, c ≤ m → m < allocFrom fs sid fuel c → dirName sid m ∈ fs := by
  intro fuel
  induction fuel with
  | zero =>
    intro c hex
    obtain ⟨k, hk1, hk2, hk3⟩ := hex
    have : k = c := by omega
    subst this
    exact ⟨by simpa [allocFrom] using hk3, by simp [allocFrom],
      fun m h1 h2 => absurd (by simpa [allocFrom] using h2) (by omega)⟩
  | succ fuel ih =>
    intro c hex
    by_cases hc : dirName sid c ∈ fs
    · have hex2 : ∃ k, c + 1 ≤ k ∧ k < (c + 1) + fuel + 1 ∧ dirName sid k ∉ fs := by
        obtain ⟨k, hk1, hk2, hk3⟩ := hex
        refine ⟨k, ?_, by omega, hk3⟩
        rcases Nat.eq_or_lt_of_le hk1 with h | h
        · exact absurd hc (h ▸ hk3)
        · omega
      obtain ⟨h1, h2, h3⟩ := ih (c + 1) hex2
      have heq : allocFrom fs sid (fuel + 1) c = allocFrom fs sid fuel (c + 1) := by
        simp [allocFrom, hc]
      refine ⟨?_, ?_, ?_⟩
      · rw [heq]; exact h1
      · rw [heq]; omega
      · intro m hm1 hm2
        rw [heq] at hm2
        rcases Nat.eq_or_lt_of_le hm1 with h | h
        · exact h ▸ hc
        · exact h3 m (by omega) hm2
    · have heq : allocFrom fs sid (fuel + 1) c = c := by
        simp [allocFrom, hc]
      refine ⟨?_, ?_, ?_⟩
      · rw [heq]; exact hc
      · rw [heq]
      · intro m hm1 hm2
        rw [heq] at hm2
        omega

/-- Enough fuel always exists: among the candidate counters
`1, …, fs.length + 2` some name is unused, because the candidate names are
pairwise distinct and `fs` is finite. -/
theorem alloc_exists_free (fs : List String) (sid : String) :
    ∃ k, 1 ≤ k ∧ k < 1 + (fs.length + 1) + 1 ∧ dirName sid k ∉ fs := by
  by_contra hall
  push_neg at hall
  have hsub : (Finset.Icc 1 (fs.length + 2)).image (dirName sid) ⊆ fs.toFinset := by
    intro x hx
    simp only [Finset.mem_image, Finset.mem_Icc] at hx
    obtain ⟨k, ⟨hk1, hk2⟩, rfl⟩ := hx
    simpa using hall k hk1 (by omega)
  have hcard := Finset.card_le_card hsub
  rw [Finset.card_image_of_injective _ (dirName_injective sid)] at hcard
  rw [Nat.card_Icc] at hcard
  have := fs.toFinset_card_le
  omega

/-- C5: every allocation of a working directory for `student_id` uses
`{student_id}_{n}` with `n` the smallest positive integer whose name is not
already present, and any later allocation for the same `student_id` in the
same run (the earlier directory now existing) receives a distinct name. -/
theorem claim5_unique_workdirs :
    (∀ (fs : List String) (sid : String),
      dirName sid (allocCounter fs sid) ∉ fs ∧
      1 ≤ allocCounter fs sid ∧
      ∀ m, 1 ≤ m → m < allocCounter fs sid → dirName sid m ∈ fs) ∧
    (∀ (fs2 : List String) (sid : String) (n1 : ℕ),
      dirName sid n1 ∈ fs2 → dirName sid (allocCounter fs2 sid) ≠ dirName sid n1) := by
  have hmain : ∀ (fs : List String) (sid : String),
      dirName sid (allocCounter fs sid) ∉ fs ∧
      1 ≤ allocCounter fs sid ∧
      ∀ m, 1 ≤ m → m < allocCounter fs sid → dirName sid m ∈ fs := by
    intro fs sid
    exact allocFrom_spec fs sid (fs.length + 1) 1 (alloc_exists_free fs sid)
  refine ⟨hmain, ?_⟩
  intro fs2 sid n1 hn1 heq
  exact (hmain fs2 sid).1 (heq ▸ hn1)

/-- C5 (witness): with `s_1` and a foreign file already present, the next
allocation for student `s` is `s_2`: fresh, positive, and skipping exactly
the occupied counter 1; and it differs from the existing `s_1`. -/
theorem claim5_witness :
    dirName "s" (allocCounter ["s_1", "other"] "s") ∉ ["s_1", "other"] ∧
    allocCounter ["s_1", "other"] "s" = 2 ∧
    dirName "s" 1 ∈ ["s_1", "other"] ∧
    dirName "s" (allocCounter ["s_1", "other"] "s") ≠ dirName "s" 1 :=
  ⟨(claim5_unique_workdirs.1 ["s_1", "other"] "s").1,
   by decide,
   (claim5_unique_workdirs.1 ["s_1", "other"] "s").2.2 1 (by decide) (by decide),
   claim5_unique_workdirs.2 ["s_1", "other"] "s" 1 (by decide)⟩

/-! ## Flattening: `flatten_extraction` (C6)

A working directory is a list of (name, node) entries; names within a real
directory are unique, which enters as a `Nodup` hypothesis where needed. -/

/-- A filesystem node: a file, or a directory with its entries. -/
inductive FsNode where
  | file
  | dir (children : List (String × FsNode))

/-- Entries surviving the OS-metadata filter of `flatten_extraction`:
name not `__MACOSX` or `.DS_Store` and not starting with `._`. -/
def visibleName (n : String) : Bool :=
  decide (n ≠ "__MACOSX") && decide (n ≠ ".DS_Store") && !(beginsWith n "._")

/-- The reserved intermediate name used by the hoist. -/
def tempName : String := "TEMP_UNWRAP_FOLDER"

/-- The per-child `shutil.move(sub_item, extract_path)` loop: a child moves
to the root unless an entry of that name already exists there (then
`shutil.move` raises, the error is logged, and the child stays).  `taken`
is the current set of root entry names; returns (moved, stayed). -/
def moveChildren : List String → List (String × FsNode) →
    List (String × FsNode) × List (String × FsNode)
  | _, [] => ([], [])
  | taken, (cn, cd) :: rest =>
    if cn ∈ taken then
      let r := moveChildren taken rest
      (r.1, (cn, cd) :: r.2)
    else
      let r := moveChildren (cn :: taken) rest
      ((cn, cd) :: r.1, r.2)

/-- `JavaSubmissionTester.flatten_extraction`: if the visible contents are
exactly one directory, that container is renamed to the reserved temporary
name (an existing entry of that name is deleted first), each child is moved
to the root, and the now-empty temporary directory is removed.  `none`
models the uncaught exception raised when the container itself carries the
reserved name (the `rmtree` just deleted it, so its rename fails).
Any other shape is left unchanged. -/
def flatten_extraction (root : List (String × FsNode)) :
    Option (List (String × FsNode)) :=
  match root.filter (fun e => visibleName e.1) with
  | [(n, FsNode.dir children)] =>
    if n = tempName then none
    else
      let root1 := root.filter (fun e => decide (e.1 ≠ tempName))
      let others := root1.filter (fun e => decide (e.1 ≠ n))
      let moved := moveChildren (tempName :: others.map Prod.fst) children
      if moved.2.isEmpty then some (others ++ moved.1)
      else some (others ++ [(tempName, FsNode.dir moved.2)] ++ moved.1)
  | _ => some root

/-- The trigger shape of `flatten_extraction`: visible contents are exactly
one directory. -/
def singleVisibleDir (root : List (String × FsNode)) : Bool :=
  match root.filter (fun e => visibleName e.1) with
  | [(_, FsNode.dir _)] => true
  | _ => false

theorem moveChildren_clean (children : List (String × FsNode)) :
    ∀ taken : List String,
      (∀ c ∈ children, c.1 ∉ taken) → (children.map Prod.fst).Nodup →
      moveChildren taken children = (children, []) := by
  induction children with
  | nil => intro taken _ _; rfl
  | cons c rest ih =>
    intro taken hfree hnodup
    have hc : c.1 ∉ taken := hfree c (by simp)
    obtain ⟨cn, cd⟩ := c
    simp only [moveChildren, if_neg hc]
    rw [ih (cn :: taken) ?_ ?_]
    · intro x hx
      simp only [List.mem_cons]
      rintro (h | h)
      · have hmem : x.1 ∈ rest.map Prod.fst := List.mem_map_of_mem Prod.fst hx
        rw [List.map_cons, List.nodup_cons] at hnodup
        exact hnodup.1 (h ▸ hmem)
      · exact hfree x (List.mem_cons_of_mem _ hx) h
    · rw [List.map_cons, List.nodup_cons] at hnodup
      exact hnodup.2

/-- C6 (counterexample): first, with an OS-metadata entry `.DS_Store`
beside the single visible directory, one flatten call leaves the root equal
to the hoisted contents *plus* the metadata entry, not equal to the nested
directory's original contents; second, a working directory whose single
visible directory carries the reserved temporary name makes the flatten
call raise (the extraction of that submission fails) instead of hoisting. -/
theorem claim6_counterexample :
    flatten_extraction
        [(".DS_Store", .file), ("Lab1", .dir [("Main.java", .file)])] =
      some [(".DS_Store", .file), ("Main.java", .file)] ∧
    ¬ ([((".DS_Store" : String), FsNode.file), ("Main.java", .file)].Perm
        [("Main.java", FsNode.file)]) ∧
    flatten_extraction [("TEMP_UNWRAP_FOLDER", .dir [("Main.java", .file)])] =
      none := by
  refine ⟨rfl, ?_, rfl⟩
  intro hperm
  have := hperm.length_eq
  simp at this

/-- C6 (amended): for a working directory whose contents are exactly one
visible directory and nothing else at all, with the reserved temporary name
unused by the container and its children and the children's names distinct,
one flatten call leaves the root's contents equal to the nested directory's
original contents (one level only — the result is returned verbatim, so a
nested single-directory chain inside is not collapsed); and a flatten call
on any directory not in the single-visible-directory shape changes
nothing. -/
theorem claim6_flatten :
    (∀ (n : String) (children : List (String × FsNode)),
      visibleName n = true → n ≠ tempName →
      (∀ c ∈ children, c.1 ≠ tempName) →
      (children.map Prod.fst).Nodup →
      flatten_extraction [(n, FsNode.dir children)] = some children) ∧
    (∀ root : List (String × FsNode), singleVisibleDir root = false →
      flatten_extraction root = some root) := by
  constructor
  · intro n children hvis hn hch hnodup
    have hfil : [(n, FsNode.dir children)].filter (fun e => visibleName e.1) =
        [(n, FsNode.dir children)] := by
      simp [List.filter, hvis]
    simp only [flatten_extraction, hfil, if_neg hn]
    have hroot1 : [(n, FsNode.dir children)].filter
        (fun e => decide (e.1 ≠ tempName)) = [(n, FsNode.dir children)] := by
      simp [List.filter, hn]
    rw [hroot1]
    have hothers : [(n, FsNode.dir children)].filter
        (fun e => decide (e.1 ≠ n)) = [] := by
      simp [List.filter]
    rw [hothers]
    simp only [List.map_nil]
    rw [moveChildren_clean children [tempName]
      (fun c hc => by simpa using hch c hc) hnodup]
    simp
  · intro root hshape
    unfold singleVisibleDir at hshape
    unfold flatten_extraction
    rcases hfil : root.filter (fun e => visibleName e.1) with _ | ⟨⟨nm, nd⟩, tl⟩
    · rw [hfil]
    · cases nd with
      | file =>
        cases tl with
        | nil => rw [hfil]
        | cons p tl2 => rw [hfil]
      | dir ch =>
        cases tl with
        | nil => rw [hfil] at hshape; simp at hshape
        | cons p tl2 => rw [hfil]

/-- C6 (witness): the two amended statements instantiated — `Lab1`
containing `Main.java` is hoisted so the root holds `Main.java` directly,
and an already-flat directory of two files is untouched. -/
theorem claim6_witness :
    flatten_extraction [("Lab1", FsNode.dir [("Main.java", FsNode.file)])] =
      some [("Main.java", FsNode.file)] ∧
    flatten_extraction [("A.java", FsNode.file), ("B.java", FsNode.file)] =
      some [("A.java", FsNode.file), ("B.java", FsNode.file)] :=
  ⟨claim6_flatten.1 "Lab1" [("Main.java", FsNode.file)] (by decide) (by decide)
    (by intro c hc; simp at hc; simp [hc, tempName]) (by simp),
   claim6_flatten.2 [("A.java", FsNode.file), ("B.java", FsNode.file)] (by rfl)⟩

/-! ## Batch control flow: `test_submission` / `run_all_tests` (C7)

`test_submission` is embedded as its stage ladder; the effectful stages
(extraction, compile, run) are oracles supplied per submission, while the
master-file existence check and the comparator call are the embedded code
paths under study.  The stop event is never set (the claim involves no
cancellation). -/

/-- Overall verdict recorded per submission. -/
inductive RunStatus where
  | PASSED
  | FAILED
deriving DecidableEq, Repr

/-- The per-unit result record (success flags and overall status). -/
structure UnitResult where
  extractionOk : Bool
  compilationOk : Bool
  executionOk : Bool
  status : RunStatus
deriving DecidableEq, Repr

/-- Oracle for the effectful stages of one submission. -/
structure UnitOracle where
  extractOk : Bool
  compileOk : Bool
  runOk : Bool
  output : String
deriving DecidableEq, Repr

/-- `JavaSubmissionTester.test_submission` (JVSSTV2_SingleFile): extract;
then check that the master entry-point file exists in `default_code` —
if it does not, log an error and return this unit's FAILED record
(compilation and execution are never attempted); otherwise continue
through compile, run, and optional output validation. -/
def test_submission (masterExists : Bool) (expected : Option String)
    (u : UnitOracle) : UnitResult :=
  if u.extractOk = false then ⟨false, false, false, .FAILED⟩
  else if masterExists = false then ⟨true, false, false, .FAILED⟩
  else if u.compileOk = false then ⟨true, false, false, .FAILED⟩
  else if u.runOk = false then ⟨true, true, false, .FAILED⟩
  else
    match expected with
    | some exp =>
      ⟨true, true, true,
        if (compare_output u.output exp).1 then .PASSED else .FAILED⟩
    | none => ⟨true, true, true, .PASSED⟩

/-- `JavaSubmissionTester.run_all_tests` (stop event never set): every
discovered submission is tested in order and its result appended; there is
no abort path between units. -/
def run_all_tests (masterExists : Bool) (expected : Option String)
    (units : List UnitOracle) : List UnitResult :=
  units.map (test_submission masterExists expected)

/-- C7 (counterexample): with the reference entry point absent and two
submissions in the batch, the run does NOT abort at the first detection —
both units are processed and each receives its own FAILED record, so a
result exists for the second unit, contradicting "no further submission
units are processed". -/
theorem claim7_counterexample :
    (run_all_tests false none
      [⟨true, true, true, ""⟩, ⟨true, true, true, ""⟩]).length = 2 ∧
    (run_all_tests false none
      [⟨true, true, true, ""⟩, ⟨true, true, true, ""⟩])[1]? =
      some ⟨true, false, false, .FAILED⟩ := by decide

/-- C7 (amended): a missing reference entry point is a per-unit failure,
not a batch-fatal one: every unit in the batch is still processed (one
result per unit, in order), and each such unit is marked FAILED with
compilation never attempted. -/
theorem claim7_missing_master (expected : Option String)
    (units : List UnitOracle) :
    (run_all_tests false expected units).length = units.length ∧
    ∀ r ∈ run_all_tests false expected units,
      r.compilationOk = false ∧ r.status = .FAILED := by
  constructor
  · simp [run_all_tests]
  · intro r hr
    simp only [run_all_tests, List.mem_map] at hr
    obtain ⟨u, _, rfl⟩ := hr
    unfold test_submission
    by_cases he : u.extractOk = false
    · simp [he]
    · simp [he]

/-- C7 (witness): the amended statement applied to a concrete two-unit
batch with the master file missing. -/
theorem claim7_witness :
    (run_all_tests false none
      [⟨false, true, true, "x"⟩, ⟨true, true, true, "y"⟩]).length = 2 ∧
    (test_submission false none ⟨true, true, true, "y"⟩).status = .FAILED :=
  ⟨(claim7_missing_master none
      [⟨false, true, true, "x"⟩, ⟨true, true, true, "y"⟩]).1,
   ((claim7_missing_master none
      [⟨false, true, true, "x"⟩, ⟨true, true, true, "y"⟩]).2
     (test_submission false none ⟨true, true, true, "y"⟩) (by decide)).2⟩

/-! ## Entry-point resolution, normalization and injection (C8, C9)

Step 3 of `test_submission` (JVSSTV2_SingleFile).  A discovered source file
is (parent directory, file name, content); the list is in `find_java_files`
discovery order; the working-directory root is parent "". -/

/-- A discovered source file. -/
structure JFile where
  parent : String
  name : String
  content : String
deriving DecidableEq, Repr

/-- Substring search (`needle in haystack`). -/
def listContainsRun (needle : List Char) : List Char → Bool
  | [] => needle.isEmpty
  | c :: rest => listLeads needle (c :: rest) || listContainsRun needle rest

/-- Python `sub in s`. -/
def strContains (s sub : String) : Bool := listContainsRun sub.data s.data

/-- The literal program-entry marker scanned for in file contents. -/
def mainMarker : String := "public static void main"

/-- Rule A of step 3: exact file-name match against the expected
entry-point file name, in discovery order. -/
def findByName (mainFileName : String) (files : List JFile) : Option JFile :=
  files.find? (fun f => decide (f.name = mainFileName))

/-- Rule B of step 3: first file whose content contains the entry-point
marker. -/
def findByMarker (files : List JFile) : Option JFile :=
  files.find? (fun f => strContains f.content mainMarker)

/-- The resolution order of step 3: exact name match, then marker scan. -/
def resolveEntry (mainFileName : String) (files : List JFile) : Option JFile :=
  match findByName mainFileName files with
  | some f => some f
  | none => findByMarker files

/-- Identifier characters of the class-name capture group
`[a-zA-Z0-9_$]`. -/
def javaIdChar (c : Char) : Bool :=
  c.isAlpha || c.isDigit || c = '_' || c = '$'

/-- Match a literal character sequence, returning the remainder. -/
def matchLitChars : List Char → List Char → Option (List Char)
  | [], rest => some rest
  | _ :: _, [] => none
  | l :: ls, r :: rs => if l = r then matchLitChars ls rs else none

/-- Match `\s+`: at least one whitespace character, consumed greedily. -/
def dropWs1 : List Char → Option (List Char)
  | c :: rest => if pyWs c then some (rest.dropWhile pyWs) else none
  | [] => none

/-- Match `[a-zA-Z0-9_$]+`: the maximal nonempty identifier run. -/
def takeIdRun (cs : List Char) : Option (List Char) :=
  let i := cs.takeWhile javaIdChar
  if i.isEmpty then none else some i

/-- Attempt the regex `public\s+class\s+([a-zA-Z0-9_$]+)` at the current
position, returning the captured class name. -/
def classNameAt (cs : List Char) : Option String :=
  (matchLitChars "public".data cs).bind fun r1 =>
  (dropWs1 r1).bind fun r2 =>
  (matchLitChars "class".data r2).bind fun r3 =>
  (dropWs1 r3).bind fun r4 =>
  (takeIdRun r4).map fun i => (⟨i⟩ : String)

/-- `re.search` for the class-name pattern: leftmost match wins. -/
def searchClassName : List Char → Option String
  | [] => none
  | c :: rest =>
    match classNameAt (c :: rest) with
    | some s => some s
    | none => searchClassName rest

/-- Delete/overwrite the entry at (parent, name) — `Path.unlink` /
the overwrite half of `shutil.copy`. -/
def removeAt (files : List JFile) (p n : String) : List JFile :=
  files.filter (fun g => !(decide (g.parent = p) && decide (g.name = n)))

/-- `Path.rename`: the resolved file object gets the new name in place. -/
def renameEntry (files : List JFile) (f : JFile) (newName : String) :
    List JFile :=
  files.map (fun g => if g = f then { g with name := newName } else g)

/-- Python `str.replace` (all occurrences), used for
`main_file_name.replace(".java", "")`; fuelled structural search. -/
def replaceAllAux (pat repl : List Char) : ℕ → List Char → List Char
  | 0, cs => cs
  | _ + 1, [] => []
  | fuel + 1, c :: rest =>
    if listLeads pat (c :: rest) && !pat.isEmpty then
      repl ++ replaceAllAux pat repl fuel (List.drop (pat.length - 1) rest)
    else c :: replaceAllAux pat repl fuel rest

/-- Python `str.replace`. -/
def strReplace (s pat repl : String) : String :=
  ⟨replaceAllAux pat.data repl.data s.data.length s.data⟩

/-- `pathlib.Path(name).stem`: the name without its final suffix. -/
def stemOf (s : String) : String :=
  match s.data.reverse.dropWhile (fun c => c ≠ '.') with
  | [] => s
  | _ :: restRev => if restRev.isEmpty then s else ⟨restRev.reverse⟩

/-- The normalization block of step 3 (lines 394–415): when enabled and an
entry file is resolved, parse `public class <Name>` from its content; if
the declared name disagrees with the file's base name, delete any existing
file already carrying the corrected name, rename the resolved file to
`{declared}.java`, update the resolved entry, and set the detected main
class to the declared name. -/
def normalizeStep (normalize : Bool) (files : List JFile) (sm : Option JFile)
    (cls : String) : List JFile × Option JFile × String :=
  match sm with
  | none => (files, none, cls)
  | some f =>
    if normalize then
      match searchClassName f.content.data with
      | some d =>
        if f.name ≠ d ++ ".java" then
          (renameEntry (removeAt files f.parent (d ++ ".java")) f (d ++ ".java"),
            some { f with name := d ++ ".java" }, d)
        else (files, some f, cls)
      | none => (files, some f, cls)
    else (files, some f, cls)

/-- The warning logged when no entry point is found. -/
def injectWarning (mainFileName : String) : String :=
  "No main entry point found; injected " ++ mainFileName

/-- The target directory of the no-entry-point injection:
`java_files[0].parent if java_files else extract_path`. -/
def injectParent (files : List JFile) : String :=
  match files with
  | [] => ""
  | g :: _ => g.parent

/-- Step 3.1 (lines 417–435): replace the student's entry file with the
master (deleting the student's file when the names differ) and target the
master class; or keep and target the student's entry (its stem); or, with
no entry resolved, inject the master into the first discovered file's
directory (the root if none) and log a warning. -/
def step31 (replaceMain : Bool) (mainFileName masterContent : String)
    (files : List JFile) (sm : Option JFile) (_cls : String) :
    List JFile × String × List String :=
  match sm with
  | some f =>
    if replaceMain then
      let files1 := removeAt files f.parent mainFileName ++
        [⟨f.parent, mainFileName, masterContent⟩]
      let files2 := if f.name ≠ mainFileName then removeAt files1 f.parent f.name
        else files1
      (files2, strReplace mainFileName ".java" "", [])
    else (files, stemOf f.name, [])
  | none =>
    (files ++ [⟨injectParent files, mainFileName, masterContent⟩],
      strReplace mainFileName ".java" "",
      [injectWarning mainFileName])

/-- Step 3 of `test_submission` in full: resolve, normalize, then decide
replace / keep / inject.  Returns (final source files, detected main
class, warnings). -/
def step3 (normalize replaceMain : Bool) (mainFileName masterContent : String)
    (files : List JFile) : List JFile × String × List String :=
  let r := normalizeStep normalize files (resolveEntry mainFileName files)
    (strReplace mainFileName ".java" "")
  step31 replaceMain mainFileName masterContent r.1 r.2.1 r.2.2

/-- C8 (counterexample): three sources, none resolvable as entry point —
one in directory `a` (discovered first) and two in directory `b`. The
master is injected into `a`, the first discovered file's directory, and
not into `b`, the directory holding the most source files. -/
theorem claim8_counterexample :
    resolveEntry "Main.java"
      [⟨"a", "X.java", "class X {}"⟩, ⟨"b", "Y.java", "class Y {}"⟩,
       ⟨"b", "Z.java", "class Z {}"⟩] = none ∧
    (⟨"a", "Main.java", "MASTER"⟩ : JFile) ∈
      (step3 true true "Main.java" "MASTER"
        [⟨"a", "X.java", "class X {}"⟩, ⟨"b", "Y.java", "class Y {}"⟩,
         ⟨"b", "Z.java", "class Z {}"⟩]).1 ∧
    (⟨"b", "Main.java", "MASTER"⟩ : JFile) ∉
      (step3 true true "Main.java" "MASTER"
        [⟨"a", "X.java", "class X {}"⟩, ⟨"b", "Y.java", "class Y {}"⟩,
         ⟨"b", "Z.java", "class Z {}"⟩]).1 ∧
    (([⟨"a", "X.java", "class X {}"⟩, ⟨"b", "Y.java", "class Y {}"⟩,
       ⟨"b", "Z.java", "class Z {}"⟩] : List JFile).filter
      (fun f => decide (f.parent = "b"))).length = 2 ∧
    (([⟨"a", "X.java", "class X {}"⟩, ⟨"b", "Y.java", "class Y {}"⟩,
       ⟨"b", "Z.java", "class Z {}"⟩] : List JFile).filter
      (fun f => decide (f.parent = "a"))).length = 1 := by decide

/-- C8 (amended): when no entry point resolves (no name match and no
marker hit), the canonical reference file is appended at the directory of
the *first discovered* source file — the working-directory root when there
are no source files at all — the detected main class becomes the master
class, and the warning is recorded. -/
theorem claim8_injection_target (normalize replaceMain : Bool)
    (mainFileName masterContent : String) (files : List JFile)
    (hres : resolveEntry mainFileName files = none) :
    step3 normalize replaceMain mainFileName masterContent files =
      (files ++ [⟨injectParent files, mainFileName, masterContent⟩],
        strReplace mainFileName ".java" "",
        [injectWarning mainFileName]) ∧
    injectParent [] = "" := by
  refine ⟨?_, rfl⟩
  unfold step3
  rw [hres]
  rfl

/-- C8 (witness): the amended statement at the three-file batch (injection
next to the first file, in `a`) and at the empty batch (injection at the
root). -/
theorem claim8_witness :
    step3 true true "Main.java" "MASTER"
      [⟨"a", "X.java", "class X {}"⟩, ⟨"b", "Y.java", "class Y {}"⟩,
       ⟨"b", "Z.java", "class Z {}"⟩] =
      ([⟨"a", "X.java", "class X {}"⟩, ⟨"b", "Y.java", "class Y {}"⟩,
        ⟨"b", "Z.java", "class Z {}"⟩, ⟨"a", "Main.java", "MASTER"⟩],
        "Main", [injectWarning "Main.java"]) ∧
    step3 true true "Main.java" "MASTER" [] =
      ([⟨"", "Main.java", "MASTER"⟩], "Main", [injectWarning "Main.java"]) :=
  ⟨by
    have h := (claim8_injection_target true true "Main.java" "MASTER"
      [⟨"a", "X.java", "class X {}"⟩, ⟨"b", "Y.java", "class Y {}"⟩,
       ⟨"b", "Z.java", "class Z {}"⟩] (by decide)).1
    simpa using h,
   by
    have h := (claim8_injection_target true true "Main.java" "MASTER" []
      (by decide)).1
    simpa using h⟩

theorem classNameAt_ne_nil (cs : List Char) (d : String)
    (h : classNameAt cs = some d) : d.data ≠ [] := by
  simp only [classNameAt, Option.bind_eq_some, Option.map_eq_some'] at h
  obtain ⟨r1, _, r2, _, r3, _, r4, _, i, h5, hd⟩ := h
  subst hd
  unfold takeIdRun at h5
  by_cases hi : (r4.takeWhile javaIdChar).isEmpty
  · rw [if_pos hi] at h5; exact absurd h5 (by simp)
  · rw [if_neg hi] at h5
    have hieq : i = r4.takeWhile javaIdChar := by simpa using h5.symm
    subst hieq
    simpa [List.isEmpty_iff] using hi

theorem searchClassName_ne_nil :
    ∀ (cs : List Char) (d : String), searchClassName cs = some d → d.data ≠ [] := by
  intro cs
  induction cs with
  | nil => intro d h; exact absurd h (by simp [searchClassName])
  | cons c rest ih =>
    intro d h
    unfold searchClassName at h
    rcases hat : classNameAt (c :: rest) with _ | s <;> rw [hat] at h
    · exact ih d h
    · have : d = s := by simpa using h.symm
      subst this
      exact classNameAt_ne_nil _ _ hat

theorem stemOf_append_java (d : String) (hd : d.data ≠ []) :
    stemOf (d ++ ".java") = d := by
  unfold stemOf
  have hrev : (d ++ ".java").data.reverse =
      'a' :: 'v' :: 'a' :: 'j' :: '.' :: d.data.reverse := by
    simp [String.data_append]
  rw [hrev]
  have hdrop :
      ('a' :: 'v' :: 'a' :: 'j' :: '.' :: d.data.reverse).dropWhile
        (fun c => c ≠ '.') = '.' :: d.data.reverse := by
    simp [List.dropWhile]
  rw [hdrop]
  have hne : d.data.reverse.isEmpty = false := by
    simpa [List.isEmpty_iff] using hd
  simp only [hne]
  simp

/-- C9 (counterexample): with normalization enabled but the default
*replace* injection policy active and a master file named `Main.java`, the
misnamed entry `A111.java` declaring `public class App` is first
normalized to `App.java` targeting `App` — but step 3.1 then overwrites
the target with the master class `Main` and deletes `App.java`, so the
subsequent build/run steps do NOT target the declared name `App`. -/
theorem claim9_counterexample :
    searchClassName
      ("public class App { public static void main(String[] args) {} }"
        : String).data = some "App" ∧
    resolveEntry "Main.java"
      [⟨"", "A111.java",
        "public class App { public static void main(String[] args) {} }"⟩] =
      some ⟨"", "A111.java",
        "public class App { public static void main(String[] args) {} }"⟩ ∧
    (step3 true true "Main.java" "public class Main {}"
      [⟨"", "A111.java",
        "public class App { public static void main(String[] args) {} }"⟩]).2.1 =
      "Main" ∧
    ("Main" : String) ≠ "App" ∧
    (∀ g ∈ (step3 true true "Main.java" "public class Main {}"
      [⟨"", "A111.java",
        "public class App { public static void main(String[] args) {} }"⟩]).1,
      g.name ≠ "App.java") := by decide

/-- C9 (amended): with normalization enabled, a resolved entry file whose
declared public class name differs from its base name is renamed to
`{declared}.java` (deleting any file already occupying that name), the
resolved entry and the detected main class become the declared name, and
the original file name is gone; the subsequent build/run steps target the
declared name when the *keep* policy is active (under the default replace
policy, step 3.1 then redirects the target to the master class). -/
theorem claim9_normalization :
    (∀ (files : List JFile) (f : JFile) (d : String) (cls : String),
      searchClassName f.content.data = some d → f.name ≠ d ++ ".java" →
      (normalizeStep true files (some f) cls).2.2 = d ∧
      (normalizeStep true files (some f) cls).2.1 =
        some ⟨f.parent, d ++ ".java", f.content⟩ ∧
      (f ∈ files → (⟨f.parent, d ++ ".java", f.content⟩ : JFile) ∈
        (normalizeStep true files (some f) cls).1) ∧
      f ∉ (normalizeStep true files (some f) cls).1) ∧
    (∀ (mainFileName masterContent : String) (files : List JFile)
      (f : JFile) (d : String),
      resolveEntry mainFileName files = some f →
      searchClassName f.content.data = some d → f.name ≠ d ++ ".java" →
      (step3 true false mainFileName masterContent files).2.1 = d) := by
  have hnorm : ∀ (files : List JFile) (f : JFile) (d : String) (cls : String),
      searchClassName f.content.data = some d → f.name ≠ d ++ ".java" →
      normalizeStep true files (some f) cls =
        (renameEntry (removeAt files f.parent (d ++ ".java")) f (d ++ ".java"),
          some { f with name := d ++ ".java" }, d) := by
    intro files f d cls hsearch hneq
    simp [normalizeStep, hsearch, hneq]
  constructor
  · intro files f d cls hsearch hneq
    rw [hnorm files f d cls hsearch hneq]
    refine ⟨rfl, rfl, ?_, ?_⟩
    · intro hf
      have hf2 : f ∈ removeAt files f.parent (d ++ ".java") := by
        simp [removeAt, List.mem_filter, hf, hneq]
      simp only [renameEntry, List.mem_map]
      exact ⟨f, hf2, by simp⟩
    · intro hmem
      simp only [renameEntry, List.mem_map] at hmem
      obtain ⟨g, _, hg⟩ := hmem
      by_cases hgf : g = f
      · rw [if_pos hgf] at hg
        have : d ++ ".java" = f.name := congrArg JFile.name hg
        exact hneq this.symm
      · rw [if_neg hgf] at hg
        exact hgf hg
  · intro mainFileName masterContent files f d hres hsearch hneq
    unfold step3
    rw [hres, hnorm files f d _ hsearch hneq]
    simp [step31, stemOf_append_java d (searchClassName_ne_nil _ _ hsearch)]

/-- C9 (witness): the amended statements at the misnamed file `A111.java`
declaring `public class App`: normalization renames it to `App.java` and
targets `App`, and under the keep policy step 3 ends targeting `App`. -/
theorem claim9_witness :
    (normalizeStep true
      [⟨"", "A111.java",
        "public class App { public static void main(String[] args) {} }"⟩]
      (some ⟨"", "A111.java",
        "public class App { public static void main(String[] args) {} }"⟩)
      "Main").2.2 = "App" ∧
    (step3 true false "Main.java" "public class Main {}"
      [⟨"", "A111.java",
        "public class App { public static void main(String[] args) {} }"⟩]).2.1 =
      "App" :=
  ⟨(claim9_normalization.1
      [⟨"", "A111.java",
        "public class App { public static void main(String[] args) {} }"⟩]
      ⟨"", "A111.java",
        "public class App { public static void main(String[] args) {} }"⟩
      "App" "Main" (by decide) (by decide)).1,
   claim9_normalization.2 "Main.java" "public class Main {}"
      [⟨"", "A111.java",
        "public class App { public static void main(String[] args) {} }"⟩]
      ⟨"", "A111.java",
        "public class App { public static void main(String[] args) {} }"⟩
      "App" (by decide) (by decide) (by decide)⟩

end JSSVT
